import Mathlib

/-!
Verification of the netra cybercrime text-classification pipeline.

The development shallowly embeds the data-preparation and prediction logic
of `CybercrimeClassifier` (notebook.ipynb): text normalization
(`preprocess_text`, second definition, which shadows the first),
rare-class filtering (`filter_rare_classes`), data preparation with
Unknown-row injection (`prepare_data`), the label encoder
(modelled from the spec, section 4.3, since sklearn's `LabelEncoder` is an
external library), and single-text prediction (`predict` with its
per-column confidence threshold and error handling).

External library calls (NLTK `word_tokenize`, `WordNetLemmatizer.lemmatize`,
the fitted classifier's `predict_proba`) are modelled as function
parameters; calls that may raise are `Except`-valued, and the Python
`try/except` blocks are embedded as explicit handlers on those values.
Probabilities (Python floats) are modelled as rationals.
-/

deriving instance DecidableEq for Except

namespace Netra

/-- One raw dataset record: free text (`crimeaditionalinfo`) plus the two
label columns. -/
structure Record where
  text : String
  category : String
  sub_category : String
deriving DecidableEq

/-- Support of label value `v` in column `get` of dataset `df`
(pandas `df[column].value_counts()[v]`). -/
def countLabel (df : List Record) (get : Record → String) (v : String) : Nat :=
  df.countP (fun r => decide (get r = v))

/-- One pass of the rare-class filter on a single column: keep the rows whose
label value has support at least `m` in the current dataframe
(`valid_classes = counts[counts >= min].index; df = df[df[col].isin(valid_classes)]`). -/
def filterColumn (m : Nat) (get : Record → String) (df : List Record) : List Record :=
  df.filter (fun r => decide (m ≤ countLabel df get (get r)))

/-- CybercrimeClassifier.filter_rare_classes: filter the `category` column,
then the `sub_category` column of the result; raise ValueError if no samples
remain. -/
def filter_rare_classes (m : Nat) (df : List Record) : Except String (List Record) :=
  if (filterColumn m Record.sub_category (filterColumn m Record.category df)).length = 0 then
    .error "No samples remaining after filtering rare classes"
  else
    .ok (filterColumn m Record.sub_category (filterColumn m Record.category df))

/-! Text normalization. The class body defines `preprocess_text` twice; the
second definition overwrites the first, so the effective normalizer is:
lowercase, drop every character outside letters and whitespace, tokenize,
drop stopwords and tokens of length at most 2, lemmatize, space-join. -/

/-- Python regex whitespace class (matched by the second definition's kept
character class together with letters). -/
def isPySpace (c : Char) : Bool :=
  c = ' ' || c = '\t' || c = '\n' || c = '\r' || c.val == 11 || c.val == 12

/-- Python str.lower (character-wise lowercasing). -/
def pythonLower (s : String) : String :=
  String.mk (s.data.map Char.toLower)

/-- Python re.sub applied with pattern [^a-zA-Z\s] and empty replacement:
keep only ASCII letters and whitespace. -/
def keepAlphaSpace (s : String) : String :=
  String.mk (s.data.filter (fun c => c.isAlpha || isPySpace c))

/-- Accumulator pass for whitespace tokenization: `cur` holds the reversed
characters of the word in progress. -/
def wordsAux : List Char → List Char → List String
  | [], [] => []
  | [], c :: cs => [String.mk (c :: cs).reverse]
  | c :: cs, cur =>
    if isPySpace c then
      match cur with
      | [] => wordsAux cs []
      | d :: ds => String.mk (d :: ds).reverse :: wordsAux cs []
    else
      wordsAux cs (c :: cur)

/-- Model of NLTK word_tokenize on a string containing only letters and
whitespace: split at whitespace, dropping empty pieces. -/
def word_tokenize (s : String) : List String :=
  wordsAux s.data []

/-- Domain-specific stopwords added in the constructor. -/
def domainStopWords : List String :=
  ["please", "help", "thank", "thanks", "sir", "madam", "kindly"]

/-- Effective stopword set: NLTK english stopwords (parameter `base`) plus the
domain extension. -/
def stop_words (base : List String) : List String :=
  base ++ domainStopWords

/-- Python str.join with a single-space separator. -/
def joinSpace : List String → String
  | [] => ""
  | [t] => t
  | t :: u :: ts => t ++ " " ++ joinSpace (u :: ts)

/-- A Python list comprehension applying a possibly-raising function to every
element: the first raise aborts the whole comprehension. -/
def mapExcept (f : String → Except String String) :
    List String → Except String (List String)
  | [] => .ok []
  | s :: ss =>
    match f s with
    | .error e => .error e
    | .ok t =>
      match mapExcept f ss with
      | .error e => .error e
      | .ok ts => .ok (t :: ts)

/-- Body of the effective (second) `preprocess_text` definition, before the
surrounding try/except: clean, tokenize (external call `tok`), filter
stopwords and short tokens, lemmatize (external call `lemma`), join. -/
def preprocess_core (tok : String → Except String (List String))
    (lem : String → Except String String)
    (base : List String) (text : String) : Except String String :=
  match tok (keepAlphaSpace (pythonLower text)) with
  | .error e => .error e
  | .ok toks =>
    match mapExcept lem
        (toks.filter (fun t => !(stop_words base).contains t && decide (2 < t.length))) with
    | .error e => .error e
    | .ok lems => .ok (joinSpace lems)

/-- The effective `preprocess_text` (second definition): the try/except
returns the empty string on any raised step. -/
def preprocess_text (tok : String → Except String (List String))
    (lem : String → Except String String)
    (base : List String) (text : String) : String :=
  match preprocess_core tok lem base text with
  | .ok s => s
  | .error _ => ""

/-- The tokens surviving the cleaning steps of the effective normalizer,
under the non-raising tokenizer model. -/
def surviving (base : List String) (text : String) : List String :=
  (word_tokenize (keepAlphaSpace (pythonLower text))).filter
    (fun t => !(stop_words base).contains t && decide (2 < t.length))

/-- Non-raising instantiation of the external tokenizer. -/
def okTok : String → Except String (List String) :=
  fun s => .ok (word_tokenize s)

/-- Non-raising identity instantiation of the external lemmatizer. -/
def idLemma : String → Except String String :=
  fun s => .ok s

/-! Label encoder. Modelled from the spec: sklearn's `LabelEncoder` is an
external library, so its behavior is taken from spec section 4.3 — fit
assigns each distinct class name a unique id 0..n-1 in a deterministic
(sorted) order, transform maps name to id and fails on an unseen name,
inverse maps id to name and fails out of range. -/

/-- Remove duplicate strings (classes form a set; order is fixed by the
subsequent sort). -/
def dedupStr : List String → List String
  | [] => []
  | s :: ss =>
    if s ∈ dedupStr ss then dedupStr ss else s :: dedupStr ss

/-- Lexicographic order on character lists, by code point. -/
def charListLt : List Char → List Char → Bool
  | [], [] => false
  | [], _ :: _ => true
  | _ :: _, [] => false
  | c :: cs, d :: ds =>
    if c.toNat < d.toNat then true
    else if d.toNat < c.toNat then false
    else charListLt cs ds

/-- Lexicographic order on strings, by code point. -/
def strLt (s t : String) : Bool :=
  charListLt s.data t.data

/-- Insert a string into a sorted list of strings. -/
def insertSorted (s : String) : List String → List String
  | [] => [s]
  | t :: ts => if strLt s t then s :: t :: ts else t :: insertSorted s ts

/-- Insertion sort on strings (np.unique returns sorted distinct values). -/
def sortStrings : List String → List String
  | [] => []
  | s :: ss => insertSorted s (sortStrings ss)

/-- Modelled from the spec: `LabelEncoder.fit` — the fitted classes are the
sorted distinct values of the fitted column. -/
def encFit (xs : List String) : List String :=
  sortStrings (dedupStr xs)

/-- Index of the first occurrence of a string in a class list. -/
def idxOf : List String → String → Option Nat
  | [], _ => none
  | t :: ts, s => if s = t then some 0 else (idxOf ts s).map (· + 1)

/-- Modelled from the spec: `LabelEncoder.transform` on one name — id of the
name among the fitted classes, error if unseen. -/
def encTransform (classes : List String) (s : String) : Except String Nat :=
  match idxOf classes s with
  | some i => .ok i
  | none => .error "y contains previously unseen labels"

/-- Modelled from the spec: `LabelEncoder.inverse_transform` on one id — the
class name at that id, error if out of range. -/
def encInverse (classes : List String) (i : Nat) : Except String String :=
  match classes.get? i with
  | some s => .ok s
  | none => .error "index out of range"

/-! Data preparation (CybercrimeClassifier.prepare_data): inject an Unknown
row per label column when absent, filter rare classes, preprocess the text,
drop rows with empty processed text, and fit the label encoders on the
remaining column values. -/

/-- One iteration of the Unknown-injection loop: if the value "Unknown" does
not occur in the column, append a copy of the first row with that column set
to "Unknown" and the text set to "unknown case" (`df.iloc[0]` raises on an
empty dataframe). -/
def injectCol (get : Record → String) (set : Record → String → Record)
    (df : List Record) : Except String (List Record) :=
  if df.any (fun r => decide (get r = "Unknown")) then
    .ok df
  else
    match df with
    | [] => .error "single positional indexer is out-of-bounds"
    | r0 :: _ => .ok (df ++ [{ set r0 "Unknown" with text := "unknown case" }])

/-- The Unknown-injection loop over both label columns. -/
def inject_unknown (df : List Record) : Except String (List Record) :=
  match injectCol Record.category (fun r v => { r with category := v }) df with
  | .error e => .error e
  | .ok df1 => injectCol Record.sub_category (fun r v => { r with sub_category := v }) df1

/-- A prepared row: the original record plus its processed text column. -/
structure PRow where
  record : Record
  processed : String
deriving DecidableEq

/-- Result of data preparation: the surviving rows and the classes of the two
fitted label encoders (the ClassIndexes). -/
structure Prepared where
  rows : List PRow
  catClasses : List String
  subClasses : List String
deriving DecidableEq

/-- The processed-text column and the removal of rows whose processed text is
empty (`df = df[df['processed_text'].str.len() > 0]`). -/
def prepRows (tok : String → Except String (List String))
    (lem : String → Except String String) (base : List String)
    (dfF : List Record) : List PRow :=
  (dfF.map (fun r => PRow.mk r (preprocess_text tok lem base r.text))).filter
    (fun p => decide (p.processed ≠ ""))

/-- CybercrimeClassifier.prepare_data. -/
def prepare_data (m : Nat) (tok : String → Except String (List String))
    (lem : String → Except String String) (base : List String)
    (df : List Record) : Except String Prepared :=
  match inject_unknown df with
  | .error e => .error e
  | .ok dfI =>
    match filter_rare_classes m dfI with
    | .error e => .error e
    | .ok dfF =>
      .ok ⟨prepRows tok lem base dfF,
        encFit ((prepRows tok lem base dfF).map (fun p => p.record.category)),
        encFit ((prepRows tok lem base dfF).map (fun p => p.record.sub_category))⟩

/-! Prediction (CybercrimeClassifier.predict). The fitted per-column model is
external: it is modelled as an optional function from the processed text to a
probability vector (`predict_proba`), Except-valued since the library call can
raise; `model.predict` is the argmax class id of that vector. A model that is
`none` is untrained. -/

/-- Python max on a list of numbers (raises on empty; the empty case is
handled at the call site). -/
def listMax : List ℚ → ℚ
  | [] => 0
  | [x] => x
  | x :: y :: xs => max x (listMax (y :: xs))

/-- np.argmax model: index of the first maximal element. -/
def idxOfMax : List ℚ → Nat
  | [] => 0
  | [_] => 0
  | x :: y :: xs => if listMax (y :: xs) ≤ x then 0 else idxOfMax (y :: xs) + 1

/-- Per-column prediction outcome: label and confidence. -/
structure ColResult where
  label : String
  confidence : ℚ
deriving DecidableEq

/-- The Unknown outcome for one column. -/
def unknownCol : ColResult := ⟨"Unknown", 0⟩

/-- A value of the result dictionary: a label entry or a confidence entry. -/
inductive RVal where
  | lab : String → RVal
  | conf : ℚ → RVal
deriving DecidableEq

/-- The result dictionary built by the per-column loop: label and confidence
entries for `category`, then for `sub_category`. -/
def mkResults (c s : ColResult) : List (String × RVal) :=
  [("category", RVal.lab c.label), ("category_confidence", RVal.conf c.confidence),
   ("sub_category", RVal.lab s.label), ("sub_category_confidence", RVal.conf s.confidence)]

/-- CybercrimeClassifier._get_unknown_prediction with no column argument. -/
def unknownAll : List (String × RVal) :=
  mkResults unknownCol unknownCol

/-- Body of the inner per-column try block: probability vector, its max and
argmax, the 0.3 confidence threshold, and decoding of the predicted id
(an out-of-range id raises, as numpy indexing does). -/
def colInner (f : String → Except String (List ℚ)) (classes : List String)
    (ptext : String) : Except String ColResult :=
  match f ptext with
  | .error e => .error e
  | .ok [] => .error "max() arg is an empty sequence"
  | .ok (p :: ps) =>
    if listMax (p :: ps) < mkRat 3 10 then
      .ok ⟨"Unknown", 0⟩
    else
      match classes.get? (idxOfMax (p :: ps)) with
      | none => .error "index out of bounds"
      | some name => .ok ⟨name, listMax (p :: ps)⟩

/-- The inner per-column try/except: any exception inside the block is
replaced by the Unknown outcome for that column. -/
def colOutcome (f : String → Except String (List ℚ)) (classes : List String)
    (ptext : String) : ColResult :=
  match colInner f classes ptext with
  | .ok r => r
  | .error _ => unknownCol

/-- One iteration of the per-column loop: the untrained-model check raises
before the inner try block, so its error escapes this step. -/
def predictColStep (model : Option (String → Except String (List ℚ)))
    (classes : List String) (ptext : String) : Except String ColResult :=
  match model with
  | none => .error "Model is not trained"
  | some f => .ok (colOutcome f classes ptext)

/-- The trained state used by `predict`: per-column optional fitted model and
the fitted encoder classes. -/
structure PredState where
  catModel : Option (String → Except String (List ℚ))
  subModel : Option (String → Except String (List ℚ))
  catClasses : List String
  subClasses : List String

/-- Body of the outer try block of CybercrimeClassifier.predict. -/
def predictCore (st : PredState) (tok : String → Except String (List String))
    (lem : String → Except String String) (base : List String)
    (text : String) : Except String (List (String × RVal)) :=
  if preprocess_text tok lem base text = "" then
    .ok unknownAll
  else
    match predictColStep st.catModel st.catClasses (preprocess_text tok lem base text) with
    | .error e => .error e
    | .ok c =>
      match predictColStep st.subModel st.subClasses (preprocess_text tok lem base text) with
      | .error e => .error e
      | .ok s => .ok (mkResults c s)

/-- CybercrimeClassifier.predict: the outer try/except replaces any escaped
exception by the all-Unknown result, so the call never raises. -/
def predict (st : PredState) (tok : String → Except String (List String))
    (lem : String → Except String String) (base : List String)
    (text : String) : List (String × RVal) :=
  match predictCore st tok lem base text with
  | .ok r => r
  | .error _ => unknownAll

/-! Concrete instances used to evaluate the definitions on explicit inputs. -/

/-- Four-record dataset on which sequential rare-class filtering leaves the
category "A" with support 1 in the output. -/
def dfQuadT : List Record :=
  [⟨"t", "A", "X"⟩, ⟨"t", "A", "Y"⟩, ⟨"t", "B", "X"⟩, ⟨"t", "B", "X"⟩]

/-- The same shape with a text that survives normalization, for prepare_data. -/
def dfQuad : List Record :=
  [⟨"abcd", "A", "X"⟩, ⟨"abcd", "A", "Y"⟩, ⟨"abcd", "B", "X"⟩, ⟨"abcd", "B", "X"⟩]

/-- Two identical records with one category and one sub_category, both with
support 2. -/
def dfPair : List Record :=
  [⟨"abcd", "A", "X"⟩, ⟨"abcd", "A", "X"⟩]

/-- The dataset `dfPair` after Unknown-row injection. -/
def dfPairInjected : List Record :=
  [⟨"abcd", "A", "X"⟩, ⟨"abcd", "A", "X"⟩,
   ⟨"unknown case", "Unknown", "X"⟩, ⟨"unknown case", "A", "Unknown"⟩]

/-- The prepared output of `prepare_data 2` on `dfPair`. -/
def pairPrepared : Prepared :=
  ⟨[⟨⟨"abcd", "A", "X"⟩, "abcd"⟩, ⟨⟨"abcd", "A", "X"⟩, "abcd"⟩], ["A"], ["X"]⟩

/-- A fitted model whose probability vector is always [0.9]. -/
def constProba : String → Except String (List ℚ) :=
  fun _ => .ok [mkRat 9 10]

/-- A fitted model whose predict_proba call always raises. -/
def failProba : String → Except String (List ℚ) :=
  fun _ => .error "NotFittedError"

/-- A state whose category model is trained and whose sub_category model is
still None. -/
def halfTrained : PredState :=
  ⟨some constProba, none, ["Fraud"], []⟩

/-- A state whose category model raises inside predict_proba and whose
sub_category model succeeds. -/
def innerFailState : PredState :=
  ⟨some failProba, some constProba, ["A"], ["Fraud"]⟩

/-! Helper lemmas. -/

theorem joinSpace_cons_ne (t : String) (ts : List String) (ht : t ≠ "") :
    joinSpace (t :: ts) ≠ "" := by
  cases ts with
  | nil => simpa [joinSpace] using ht
  | cons u us =>
    intro h
    have hlen := congrArg String.length h
    simp [joinSpace, String.length_append] at hlen
    exact absurd hlen.1.2 (by decide)

theorem length_pos_ne_empty {s : String} (h : 2 < s.length) : s ≠ "" := by
  intro hc
  subst hc
  simp [String.length] at h

theorem mapExcept_ok (l : String → String) (xs : List String) :
    mapExcept (fun s => Except.ok (l s)) xs = Except.ok (xs.map l) := by
  induction xs with
  | nil => rfl
  | cons s ss ih => simp [mapExcept, ih]

theorem preprocess_ok_eq (l : String → String) (base : List String) (text : String) :
    preprocess_text okTok (fun s => Except.ok (l s)) base text
      = joinSpace ((surviving base text).map l) := by
  simp [preprocess_text, preprocess_core, okTok, surviving, mapExcept_ok]

theorem surviving_length (base : List String) (text : String) :
    ∀ s ∈ surviving base text, 2 < s.length := by
  intro s hs
  have h := (List.mem_filter.mp hs).2
  simp only [Bool.and_eq_true, decide_eq_true_eq] at h
  exact h.2

theorem mem_filterColumn {m : Nat} {get : Record → String} {df : List Record}
    {r : Record} :
    r ∈ filterColumn m get df ↔ r ∈ df ∧ m ≤ countLabel df get (get r) := by
  simp [filterColumn, List.mem_filter]

theorem filterColumn_sublist (m : Nat) (get : Record → String) (df : List Record) :
    (filterColumn m get df).Sublist df :=
  List.filter_sublist df

theorem countLabel_filterColumn_le (m : Nat) (g1 g2 : Record → String)
    (df : List Record) (v : String) :
    countLabel (filterColumn m g1 df) g2 v ≤ countLabel df g2 v :=
  (filterColumn_sublist m g1 df).countP_le _

theorem filter_rare_ok {m : Nat} {df out : List Record}
    (h : filter_rare_classes m df = .ok out) :
    out = filterColumn m Record.sub_category (filterColumn m Record.category df)
      ∧ out ≠ [] := by
  unfold filter_rare_classes at h
  split at h
  · exact absurd h (by simp)
  · rename_i hne
    refine ⟨by injection h with h2; exact h2.symm, ?_⟩
    intro hc
    injection h with h2
    rw [← h2] at hc
    simp [hc] at hne

theorem countLabel_append (df1 df2 : List Record) (get : Record → String) (v : String) :
    countLabel (df1 ++ df2) get v = countLabel df1 get v + countLabel df2 get v := by
  simp [countLabel, List.countP_append]

theorem countLabel_singleton (r : Record) (get : Record → String) (v : String) :
    countLabel [r] get v = if get r = v then 1 else 0 := by
  by_cases h : get r = v <;> simp [countLabel, List.countP_cons, h]

theorem countLabel_eq_zero {df : List Record} {get : Record → String} {v : String}
    (h : ∀ r ∈ df, get r ≠ v) : countLabel df get v = 0 := by
  simp only [countLabel, List.countP_eq_zero]
  intro r hr
  simpa using h r hr

theorem mem_dedupStr {s : String} {l : List String} : s ∈ dedupStr l ↔ s ∈ l := by
  induction l with
  | nil => simp [dedupStr]
  | cons t ts ih =>
    by_cases h : t ∈ dedupStr ts
    · simp only [dedupStr, if_pos h, List.mem_cons, ih]
      constructor
      · exact fun hx => Or.inr hx
      · rintro (rfl | hx)
        · exact ih.mp h
        · exact hx
    · simp [dedupStr, if_neg h, ih]

theorem nodup_dedupStr (l : List String) : (dedupStr l).Nodup := by
  induction l with
  | nil => simp [dedupStr]
  | cons t ts ih =>
    by_cases h : t ∈ dedupStr ts
    · simpa [dedupStr, if_pos h] using ih
    · simpa [dedupStr, if_neg h] using ⟨h, ih⟩

theorem insertSorted_perm (s : String) (l : List String) :
    (insertSorted s l).Perm (s :: l) := by
  induction l with
  | nil => simp [insertSorted]
  | cons t ts ih =>
    unfold insertSorted
    by_cases h : strLt s t = true
    · rw [if_pos h]
    · rw [if_neg h]
      exact (List.Perm.cons t ih).trans (List.Perm.swap s t ts)

theorem sortStrings_perm (l : List String) : (sortStrings l).Perm l := by
  induction l with
  | nil => simp [sortStrings]
  | cons s ss ih =>
    exact ((insertSorted_perm s (sortStrings ss)).trans (List.Perm.cons s ih))

theorem mem_encFit {a : String} {xs : List String} : a ∈ encFit xs ↔ a ∈ xs := by
  unfold encFit
  rw [(sortStrings_perm (dedupStr xs)).mem_iff, mem_dedupStr]

theorem nodup_encFit (xs : List String) : (encFit xs).Nodup := by
  unfold encFit
  exact ((sortStrings_perm (dedupStr xs)).nodup_iff).mpr (nodup_dedupStr xs)

theorem idxOf_eq_none {l : List String} {s : String} (h : s ∉ l) :
    idxOf l s = none := by
  induction l with
  | nil => rfl
  | cons t ts ih =>
    have hst : s ≠ t := fun hc => h (hc ▸ List.mem_cons_self t ts)
    have hts : s ∉ ts := fun hc => h (List.mem_cons_of_mem t hc)
    simp [idxOf, hst, ih hts]

theorem idxOf_get {l : List String} (hnd : l.Nodup) (i : Nat) (hi : i < l.length) :
    idxOf l (l.get ⟨i, hi⟩) = some i := by
  induction l generalizing i with
  | nil => simp at hi
  | cons t ts ih =>
    cases i with
    | zero => simp [idxOf]
    | succ j =>
      have hj : j < ts.length := by simpa using hi
      have hmem : ts.get ⟨j, hj⟩ ∈ ts := ts.get_mem _ _
      have hne : ts.get ⟨j, hj⟩ ≠ t := by
        intro hc
        exact (List.nodup_cons.mp hnd).1 (hc ▸ hmem)
      have hih := ih (List.nodup_cons.mp hnd).2 j hj
      show idxOf (t :: ts) (ts.get ⟨j, hj⟩) = some (j + 1)
      simp only [idxOf, if_neg hne, hih, Option.map_some']

theorem idxOf_some_get {l : List String} {s : String} {i : Nat}
    (h : idxOf l s = some i) : l.get? i = some s := by
  induction l generalizing i with
  | nil => simp [idxOf] at h
  | cons t ts ih =>
    by_cases hst : s = t
    · simp [idxOf, hst] at h
      simp [← h, hst]
    · simp only [idxOf, if_neg hst, Option.map_eq_some'] at h
      obtain ⟨j, hj, rfl⟩ := h
      simpa using ih hj

theorem idxOf_mem_isSome {l : List String} {s : String} (h : s ∈ l) :
    ∃ i, idxOf l s = some i := by
  induction l with
  | nil => simp at h
  | cons t ts ih =>
    by_cases hst : s = t
    · exact ⟨0, by simp [idxOf, hst]⟩
    · obtain ⟨j, hj⟩ := ih ((List.mem_cons.mp h).resolve_left hst)
      exact ⟨j + 1, by simp [idxOf, hst, hj]⟩

theorem idxOfMax_lt_length (p : ℚ) (ps : List ℚ) :
    idxOfMax (p :: ps) < (p :: ps).length := by
  induction ps generalizing p with
  | nil => simp [idxOfMax]
  | cons q qs ih =>
    by_cases h : listMax (q :: qs) ≤ p
    · simp [idxOfMax, h]
    · have hq := ih q
      simp only [List.length_cons] at hq
      simp only [idxOfMax, if_neg h, List.length_cons]
      omega

theorem prepRows_mem {tok : String → Except String (List String)}
    {lem : String → Except String String} {base : List String}
    {dfF : List Record} {p : PRow} (h : p ∈ prepRows tok lem base dfF) :
    p.record ∈ dfF ∧ p.processed ≠ "" := by
  unfold prepRows at h
  have h1 := List.mem_filter.mp h
  obtain ⟨r, hr, rfl⟩ := List.mem_map.mp h1.1
  exact ⟨hr, by simpa using h1.2⟩

theorem prepare_data_ok {m : Nat} {tok : String → Except String (List String)}
    {lem : String → Except String String} {base : List String}
    {df : List Record} {P : Prepared} (h : prepare_data m tok lem base df = .ok P) :
    ∃ dfI dfF, inject_unknown df = .ok dfI ∧ filter_rare_classes m dfI = .ok dfF ∧
      P.rows = prepRows tok lem base dfF ∧
      P.catClasses = encFit (P.rows.map (fun p => p.record.category)) ∧
      P.subClasses = encFit (P.rows.map (fun p => p.record.sub_category)) := by
  unfold prepare_data at h
  cases hI : inject_unknown df with
  | error e => rw [hI] at h; exact absurd h (by simp)
  | ok dfI =>
    rw [hI] at h
    simp only [] at h
    cases hF : filter_rare_classes m dfI with
    | error e => rw [hF] at h; exact absurd h (by simp)
    | ok dfF =>
      rw [hF] at h
      simp only [] at h
      injection h with h2
      exact ⟨dfI, dfF, rfl, hF, by rw [← h2], by rw [← h2], by rw [← h2]⟩

theorem encFit_map_exists {f : PRow → String} {rows : List PRow} {c : String}
    (h : c ∈ encFit (rows.map f)) : ∃ p ∈ rows, f p = c := by
  simpa using List.mem_map.mp (mem_encFit.mp h)

theorem countLabel_pos {df : List Record} {get : Record → String} {v : String}
    (h : ∃ r ∈ df, get r = v) : 1 ≤ countLabel df get v := by
  unfold countLabel
  rw [Nat.succ_le, List.countP_pos_iff]
  obtain ⟨r, hr, hv⟩ := h
  exact ⟨r, hr, by simpa using hv⟩

theorem predict_trained_eq {st : PredState}
    {tok : String → Except String (List String)}
    {lem : String → Except String String} {base : List String} {text : String}
    {f g : String → Except String (List ℚ)}
    (hf : st.catModel = some f) (hg : st.subModel = some g)
    (hp : preprocess_text tok lem base text ≠ "") :
    predict st tok lem base text =
      mkResults (colOutcome f st.catClasses (preprocess_text tok lem base text))
        (colOutcome g st.subClasses (preprocess_text tok lem base text)) := by
  unfold predict predictCore predictColStep
  rw [hf, hg, if_neg hp]

theorem predict_shape (st : PredState) (tok : String → Except String (List String))
    (lem : String → Except String String) (base : List String) (text : String) :
    ∃ c s : ColResult, predict st tok lem base text = mkResults c s := by
  unfold predict predictCore
  by_cases hp : preprocess_text tok lem base text = ""
  · rw [if_pos hp]
    exact ⟨unknownCol, unknownCol, rfl⟩
  · rw [if_neg hp]
    cases h1 : predictColStep st.catModel st.catClasses (preprocess_text tok lem base text) with
    | error e => exact ⟨unknownCol, unknownCol, rfl⟩
    | ok c =>
      cases h2 : predictColStep st.subModel st.subClasses (preprocess_text tok lem base text) with
      | error e => exact ⟨unknownCol, unknownCol, rfl⟩
      | ok s => exact ⟨c, s, rfl⟩

/-! The claims. -/

/-- Claim C7: for every input text (and every instantiation of the external
tokenizer, lemmatizer, stopword set, and trained state), predict returns a
well-formed result dictionary containing a label entry and a confidence entry
for both the category and the sub_category columns; being a total function
into that dictionary type, it never raises to its caller (the outer
try/except turns every escaped exception into the all-Unknown dictionary). -/
theorem claimC7_predict_wellformed (st : PredState)
    (tok : String → Except String (List String))
    (lem : String → Except String String) (base : List String) (text : String) :
    ∃ cl cc sl sc, predict st tok lem base text =
      [("category", RVal.lab cl), ("category_confidence", RVal.conf cc),
       ("sub_category", RVal.lab sl), ("sub_category_confidence", RVal.conf sc)] := by
  obtain ⟨c, s, h⟩ := predict_shape st tok lem base text
  exact ⟨c.label, c.confidence, s.label, s.confidence, h⟩

/-- Claim C10: when predict is called before training (either column's model
is None), the untrained-model error escapes the per-column loop to the outer
handler and the call returns the all-Unknown result — never a partial result
and never an exception. -/
theorem claimC10_untrained_all_unknown (st : PredState)
    (tok : String → Except String (List String))
    (lem : String → Except String String) (base : List String) (text : String)
    (h : st.catModel = none ∨ st.subModel = none) :
    predict st tok lem base text = unknownAll := by
  unfold predict predictCore
  by_cases hp : preprocess_text tok lem base text = ""
  · rw [if_pos hp]
  · rw [if_neg hp]
    rcases h with hc | hs
    · rw [hc]
      simp [predictColStep]
    · cases hcm : st.catModel with
      | none => simp [predictColStep]
      | some f => rw [hs]; simp [predictColStep]

/-- Witness for C10 at a concrete half-trained state: the category model is
fitted but the sub_category model is None, and predict returns all-Unknown. -/
theorem claimC10_witness :
    predict halfTrained okTok idLemma [] "hello" = unknownAll :=
  claimC10_untrained_all_unknown halfTrained okTok idLemma [] "hello" (Or.inr rfl)

/-- Claim C8: the second `preprocess_text` definition is the one in effect,
and it is exactly lowercasing, removal of non-letter non-whitespace
characters, tokenization, stopword and short-token removal, and
lemmatization, space-joined — with no n-gram augmentation and no
minimum-token-count check; hence (for a lemmatizer sending non-empty words to
non-empty lemmas) an input with exactly one or two surviving tokens yields a
non-empty output. -/
theorem claimC8_second_definition_effective (l : String → String)
    (base : List String) (text : String) :
    preprocess_text okTok (fun s => Except.ok (l s)) base text
        = joinSpace ((surviving base text).map l) ∧
    ((∀ s, s ≠ "" → l s ≠ "") →
      ((surviving base text).length = 1 ∨ (surviving base text).length = 2) →
      preprocess_text okTok (fun s => Except.ok (l s)) base text ≠ "") := by
  refine ⟨preprocess_ok_eq l base text, ?_⟩
  intro hl hlen
  rw [preprocess_ok_eq]
  cases hs : surviving base text with
  | nil => rw [hs] at hlen; simp at hlen
  | cons t ts =>
    have htm : t ∈ surviving base text := by rw [hs]; exact List.mem_cons_self t ts
    have ht : t ≠ "" := length_pos_ne_empty (surviving_length base text t htm)
    rw [List.map_cons]
    exact joinSpace_cons_ne (l t) (ts.map l) (hl t ht)

/-- Witness for C8: "hello world" has exactly two surviving tokens and its
normalization is non-empty. -/
theorem claimC8_witness :
    preprocess_text okTok (fun s => Except.ok s) [] "hello world" ≠ "" :=
  (claimC8_second_definition_effective (fun s => s) [] "hello world").2
    (fun _ hs => hs) (Or.inr (by decide))

/-- Counterexample to claim C2: the claim requires the empty string whenever
fewer than 3 tokens survive, but on "hello" exactly one token survives and
the effective normalizer returns "hello", not "" — the minimum-token-count
check exists only in the shadowed first definition. -/
theorem claimC2_counterexample :
    (surviving [] "hello").length < 3 ∧
    preprocess_text okTok idLemma [] "hello" = "hello" := by decide

/-- Claim C2 as amended: normalization returns the space-join of the
surviving lemmatized tokens, returns the empty string when a step raises
(never propagating the error), and its output is empty exactly when no token
survives — there is no fewer-than-3-tokens cutoff in the effective
definition. -/
theorem claimC2_amended_normalizer (l : String → String)
    (tok : String → Except String (List String))
    (lem : String → Except String String)
    (base : List String) (text : String) :
    (preprocess_text okTok (fun s => Except.ok (l s)) base text
      = joinSpace ((surviving base text).map l)) ∧
    (∀ e, tok (keepAlphaSpace (pythonLower text)) = .error e →
      preprocess_text tok lem base text = "") ∧
    ((∀ s, s ≠ "" → l s ≠ "") →
      (preprocess_text okTok (fun s => Except.ok (l s)) base text = "" ↔
        surviving base text = [])) := by
  refine ⟨preprocess_ok_eq l base text, ?_, ?_⟩
  · intro e he
    unfold preprocess_text preprocess_core
    rw [he]
  · intro hl
    rw [preprocess_ok_eq]
    constructor
    · intro h
      by_contra hne
      cases hs : surviving base text with
      | nil => exact hne hs
      | cons t ts =>
        have htm : t ∈ surviving base text := by rw [hs]; exact List.mem_cons_self t ts
        have ht : t ≠ "" := length_pos_ne_empty (surviving_length base text t htm)
        rw [hs, List.map_cons] at h
        exact joinSpace_cons_ne (l t) (ts.map l) (hl t ht) h
    · intro h
      rw [h]
      rfl

/-- Witness for the amended C2: a tokenizer that raises (e.g. a missing NLTK
resource) makes normalization return the empty string instead of
propagating. -/
theorem claimC2_amended_witness :
    preprocess_text (fun _ => Except.error "LookupError") idLemma [] "hello" = "" :=
  (claimC2_amended_normalizer (fun s => s) (fun _ => Except.error "LookupError")
    idLemma [] "hello").2.1 "LookupError" rfl

/-- Claim C1: per label column, on a probability vector over that column's
fitted classes, the predictor returns "Unknown" with confidence 0 when the
maximum probability is below 0.3, and otherwise the decoded class name at the
argmax id — a member of the fitted classes — with the maximum probability as
its confidence; so the label is always "Unknown" or a known class.  The
second conjunct ties the per-column rule into predict: with both models
trained and a non-empty normalization, predict returns exactly the two
per-column outcomes. -/
theorem claimC1_predictor_threshold :
    (∀ (f : String → Except String (List ℚ)) (classes : List String)
        (ptext : String) (p : ℚ) (ps : List ℚ),
      f ptext = .ok (p :: ps) →
      (p :: ps).length = classes.length →
      ((listMax (p :: ps) < mkRat 3 10 →
          colOutcome f classes ptext = ⟨"Unknown", 0⟩) ∧
       (¬listMax (p :: ps) < mkRat 3 10 →
          ∃ name, classes.get? (idxOfMax (p :: ps)) = some name ∧
            colOutcome f classes ptext = ⟨name, listMax (p :: ps)⟩ ∧
            name ∈ classes) ∧
       ((colOutcome f classes ptext).label = "Unknown" ∨
          (colOutcome f classes ptext).label ∈ classes))) ∧
    (∀ (st : PredState) (tok : String → Except String (List String))
        (lem : String → Except String String) (base : List String)
        (text : String) (f g : String → Except String (List ℚ)),
      st.catModel = some f → st.subModel = some g →
      preprocess_text tok lem base text ≠ "" →
      predict st tok lem base text =
        mkResults (colOutcome f st.catClasses (preprocess_text tok lem base text))
          (colOutcome g st.subClasses (preprocess_text tok lem base text))) := by
  constructor
  · intro f classes ptext p ps hf hlen
    have hidx : idxOfMax (p :: ps) < classes.length := hlen ▸ idxOfMax_lt_length p ps
    have hname : classes.get? (idxOfMax (p :: ps)) =
        some (classes.get ⟨idxOfMax (p :: ps), hidx⟩) := List.get?_eq_get hidx
    have hnm : classes.get ⟨idxOfMax (p :: ps), hidx⟩ ∈ classes := List.get?_mem hname
    by_cases hth : listMax (p :: ps) < mkRat 3 10
    · have hout : colOutcome f classes ptext = ⟨"Unknown", 0⟩ := by
        unfold colOutcome colInner
        rw [hf]
        simp only [if_pos hth]
      exact ⟨fun _ => hout, fun hc => absurd hth hc, Or.inl (by rw [hout])⟩
    · have hout : colOutcome f classes ptext =
          ⟨classes.get ⟨idxOfMax (p :: ps), hidx⟩, listMax (p :: ps)⟩ := by
        unfold colOutcome colInner
        rw [hf]
        simp only [if_neg hth, hname]
      exact ⟨fun hc => absurd hc hth,
        fun _ => ⟨classes.get ⟨idxOfMax (p :: ps), hidx⟩, hname, hout, hnm⟩,
        Or.inr (by rw [hout]; exact hnm)⟩
  · intro st tok lem base text f g hf hg hp
    exact predict_trained_eq hf hg hp

/-- Witness for C1: a probability vector [0.5, 0.4] over classes
["Fraud", "Spam"] yields the decoded argmax class "Fraud" with the maximum
probability as its confidence. -/
theorem claimC1_witness :
    colOutcome (fun _ => Except.ok [mkRat 1 2, mkRat 2 5]) ["Fraud", "Spam"] "x"
      = ⟨"Fraud", listMax [mkRat 1 2, mkRat 2 5]⟩ := by
  obtain ⟨name, hname, hout, hmem⟩ :=
    (claimC1_predictor_threshold.1 (fun _ => Except.ok [mkRat 1 2, mkRat 2 5])
      ["Fraud", "Spam"] "x" (mkRat 1 2) [mkRat 2 5] rfl (by decide)).2.1 (by decide)
  have hc : (["Fraud", "Spam"] : List String).get? (idxOfMax [mkRat 1 2, mkRat 2 5])
      = some "Fraud" := by decide
  have hn : name = "Fraud" := Option.some.inj (hname.symm.trans hc)
  rw [hn] at hout
  exact hout

/-- Counterexample to claim C3: on a four-record dataset with threshold 2,
sequential filtering (category first, then sub_category) leaves category "A"
with support 1 < 2 in the output, and filtering the output again gives a
strictly smaller dataset — neither the support property nor idempotence
holds. -/
theorem claimC3_counterexample :
    filter_rare_classes 2 dfQuadT =
      .ok [⟨"t", "A", "X"⟩, ⟨"t", "B", "X"⟩, ⟨"t", "B", "X"⟩] ∧
    countLabel [⟨"t", "A", "X"⟩, ⟨"t", "B", "X"⟩, ⟨"t", "B", "X"⟩]
      Record.category "A" = 1 ∧
    filter_rare_classes 2 [(⟨"t", "A", "X"⟩ : Record), ⟨"t", "B", "X"⟩, ⟨"t", "B", "X"⟩] =
      .ok [⟨"t", "B", "X"⟩, ⟨"t", "B", "X"⟩] := by decide

/-- Claim C3 as amended: every record the filter keeps has a category whose
support was at least T in the input dataset and a sub_category whose support
was at least T in the category-filtered intermediate; the support measured in
the output may be lower, and refiltering may shrink the output further. -/
theorem claimC3_amended_filter_support (m : Nat) (df out : List Record)
    (h : filter_rare_classes m df = .ok out) :
    out ≠ [] ∧ ∀ r ∈ out,
      m ≤ countLabel df Record.category r.category ∧
      m ≤ countLabel (filterColumn m Record.category df)
            Record.sub_category r.sub_category := by
  obtain ⟨hout, hne⟩ := filter_rare_ok h
  refine ⟨hne, ?_⟩
  intro r hr
  rw [hout] at hr
  have h2 := mem_filterColumn.mp hr
  have h1 := mem_filterColumn.mp h2.1
  exact ⟨h1.2, h2.2⟩

/-- Witness for the amended C3 on the two-record dataset. -/
theorem claimC3_amended_witness :
    2 ≤ countLabel dfPair Record.category "A" ∧
    2 ≤ countLabel (filterColumn 2 Record.category dfPair)
          Record.sub_category "X" :=
  (claimC3_amended_filter_support 2 dfPair dfPair (by decide)).2
    ⟨"abcd", "A", "X"⟩ (by decide)

/-- Counterexample to claim C5: with the category model trained (its own
computation succeeds with "Fraud" at confidence 0.9) and the sub_category
model untrained, the sub_category column's exception is not substituted for
that column only — it escapes to the outer handler and the whole result is
all-Unknown, discarding the category column's successful prediction. -/
theorem claimC5_counterexample :
    colOutcome constProba ["Fraud"] (preprocess_text okTok idLemma [] "fraud")
      = ⟨"Fraud", mkRat 9 10⟩ ∧
    predict halfTrained okTok idLemma [] "fraud" = unknownAll := by decide

/-- Claim C5 as amended: an exception raised inside the per-column try block
(during probability computation or decoding) is caught and replaced by the
Unknown result for that column only, and the other column's outcome is
returned unaffected; only the untrained-model check, which sits before the
per-column try block, aborts both columns. -/
theorem claimC5_amended_per_column (st : PredState)
    (tok : String → Except String (List String))
    (lem : String → Except String String) (base : List String) (text : String)
    (f g : String → Except String (List ℚ))
    (hf : st.catModel = some f) (hg : st.subModel = some g)
    (hp : preprocess_text tok lem base text ≠ "") :
    (∀ e, colInner f st.catClasses (preprocess_text tok lem base text) = .error e →
      predict st tok lem base text =
        mkResults ⟨"Unknown", 0⟩
          (colOutcome g st.subClasses (preprocess_text tok lem base text))) ∧
    (∀ e, colInner g st.subClasses (preprocess_text tok lem base text) = .error e →
      predict st tok lem base text =
        mkResults (colOutcome f st.catClasses (preprocess_text tok lem base text))
          ⟨"Unknown", 0⟩) := by
  constructor
  · intro e he
    rw [predict_trained_eq hf hg hp]
    have hcat : colOutcome f st.catClasses (preprocess_text tok lem base text)
        = unknownCol := by
      unfold colOutcome
      rw [he]
    rw [hcat]
    rfl
  · intro e he
    rw [predict_trained_eq hf hg hp]
    have hsub : colOutcome g st.subClasses (preprocess_text tok lem base text)
        = unknownCol := by
      unfold colOutcome
      rw [he]
    rw [hsub]
    rfl

/-- Witness for the amended C5: the category column's predict_proba raises,
that column alone degrades to Unknown, and the sub_category column returns
its own outcome. -/
theorem claimC5_amended_witness :
    predict innerFailState okTok idLemma [] "fraud" =
      mkResults ⟨"Unknown", 0⟩
        (colOutcome constProba ["Fraud"] (preprocess_text okTok idLemma [] "fraud")) :=
  (claimC5_amended_per_column innerFailState okTok idLemma [] "fraud"
    failProba constProba rfl rfl (by decide)).1 "NotFittedError" rfl

/-- Claim C6: for a label encoder fitted on any column values, decoding then
encoding any valid id returns that id, encoding then decoding any name
present at fit time returns that name, encoding an unseen name fails, and
decoding an out-of-range id fails. -/
theorem claimC6_encoder_roundtrip (xs : List String) :
    (∀ i (hi : i < (encFit xs).length),
      encTransform (encFit xs) ((encFit xs).get ⟨i, hi⟩) = .ok i ∧
      encInverse (encFit xs) i = .ok ((encFit xs).get ⟨i, hi⟩)) ∧
    (∀ s ∈ xs, ∃ i, encTransform (encFit xs) s = .ok i ∧
      encInverse (encFit xs) i = .ok s) ∧
    (∀ s, s ∉ xs → ∃ e, encTransform (encFit xs) s = .error e) ∧
    (∀ i, (encFit xs).length ≤ i → ∃ e, encInverse (encFit xs) i = .error e) := by
  refine ⟨?_, ?_, ?_, ?_⟩
  · intro i hi
    constructor
    · unfold encTransform
      rw [idxOf_get (nodup_encFit xs) i hi]
    · unfold encInverse
      rw [List.get?_eq_get hi]
  · intro s hs
    obtain ⟨i, hi⟩ := idxOf_mem_isSome (mem_encFit.mpr hs)
    refine ⟨i, ?_, ?_⟩
    · unfold encTransform
      rw [hi]
    · unfold encInverse
      rw [idxOf_some_get hi]
  · intro s hs
    refine ⟨"y contains previously unseen labels", ?_⟩
    unfold encTransform
    rw [idxOf_eq_none (fun hc => hs (mem_encFit.mp hc))]
  · intro i hi
    refine ⟨"index out of range", ?_⟩
    unfold encInverse
    rw [List.get?_eq_none.mpr hi]

/-- Witness for C6: fitting on ["b", "a"] sorts the classes to ["a", "b"];
"b" encodes to 1 and 1 decodes back to "b". -/
theorem claimC6_witness :
    encTransform (encFit ["b", "a"]) "b" = .ok 1 ∧
    encInverse (encFit ["b", "a"]) 1 = .ok "b" := by
  obtain ⟨i, h1, h2⟩ := (claimC6_encoder_roundtrip ["b", "a"]).2.1 "b" (by decide)
  have hconc : encTransform (encFit ["b", "a"]) "b" = .ok 1 := by decide
  have hi : i = 1 := by
    have := h1.symm.trans hconc
    exact Except.ok.inj this
  rw [hi] at h1 h2
  exact ⟨h1, h2⟩

/-- Counterexample to claim C4: preparing the four-record dataset with
min_samples_per_class 2 fits the category encoder on classes ["A", "B"], yet
"A" has support 1 < 2 in the prepared dataset (the sub_category filter ran
after the category filter and removed the second "A" row). -/
theorem claimC4_counterexample :
    prepare_data 2 okTok idLemma [] dfQuad =
      .ok ⟨[⟨⟨"abcd", "A", "X"⟩, "abcd"⟩, ⟨⟨"abcd", "B", "X"⟩, "abcd"⟩,
            ⟨⟨"abcd", "B", "X"⟩, "abcd"⟩], ["A", "B"], ["X"]⟩ ∧
    "A" ∈ (["A", "B"] : List String) ∧
    countLabel [⟨"abcd", "A", "X"⟩, ⟨"abcd", "B", "X"⟩, ⟨"abcd", "B", "X"⟩]
      Record.category "A" = 1 ∧
    (1 : Nat) < 2 := by decide

/-- Claim C4 as amended: every class in a fitted ClassIndex occurs in the
prepared dataset (support at least 1), and had support at least
min_samples_per_class at the moment its column's rare-class filter ran (on
the Unknown-injected dataset for category, on the category-filtered
intermediate for sub_category); its support in the final prepared dataset may
be smaller. -/
theorem claimC4_amended_classindex (m : Nat)
    (tok : String → Except String (List String))
    (lem : String → Except String String) (base : List String)
    (df : List Record) (P : Prepared)
    (h : prepare_data m tok lem base df = .ok P) :
    ∃ dfI, inject_unknown df = .ok dfI ∧
      (∀ c ∈ P.catClasses,
        1 ≤ countLabel (P.rows.map (fun p => p.record)) Record.category c ∧
        m ≤ countLabel dfI Record.category c) ∧
      (∀ c ∈ P.subClasses,
        1 ≤ countLabel (P.rows.map (fun p => p.record)) Record.sub_category c ∧
        m ≤ countLabel (filterColumn m Record.category dfI)
              Record.sub_category c) := by
  obtain ⟨dfI, dfF, hI, hF, hrows, hcatC, hsubC⟩ := prepare_data_ok h
  obtain ⟨hFout, _⟩ := filter_rare_ok hF
  refine ⟨dfI, hI, ?_, ?_⟩
  · intro c hc
    rw [hcatC] at hc
    obtain ⟨p, hp, hpc⟩ := encFit_map_exists hc
    constructor
    · exact countLabel_pos ⟨p.record, List.mem_map.mpr ⟨p, hp, rfl⟩, hpc⟩
    · have hrec := (prepRows_mem (hrows ▸ hp)).1
      rw [hFout] at hrec
      have h2m := mem_filterColumn.mp hrec
      have h1m := mem_filterColumn.mp h2m.1
      rw [← hpc]
      exact h1m.2
  · intro c hc
    rw [hsubC] at hc
    obtain ⟨p, hp, hpc⟩ := encFit_map_exists hc
    constructor
    · exact countLabel_pos ⟨p.record, List.mem_map.mpr ⟨p, hp, rfl⟩, hpc⟩
    · have hrec := (prepRows_mem (hrows ▸ hp)).1
      rw [hFout] at hrec
      have h2m := mem_filterColumn.mp hrec
      rw [← hpc]
      exact h2m.2

/-- Witness for the amended C4 on the two-record dataset: class "A" occurs in
the prepared rows and had support 2 on the injected dataset when the category
filter ran. -/
theorem claimC4_amended_witness :
    1 ≤ countLabel (pairPrepared.rows.map (fun p => p.record)) Record.category "A" ∧
    2 ≤ countLabel dfPairInjected Record.category "A" := by
  obtain ⟨dfI, hI, hcat, _⟩ :=
    claimC4_amended_classindex 2 okTok idLemma [] dfPair pairPrepared (by decide)
  have hconc : inject_unknown dfPair = Except.ok dfPairInjected := by decide
  have hd : dfI = dfPairInjected := Except.ok.inj (hI.symm.trans hconc)
  have h := hcat "A" (by decide)
  rw [hd] at h
  exact h

/-- Claim C9: on a non-empty dataset in which "Unknown" occurs in neither
label column, prepare_data first appends one synthetic record per label
column — a copy of the first row with that column set to "Unknown" and the
text set to "unknown case" — before filtering; and whenever
min_samples_per_class is at least 2 those singleton synthetic records are
removed again by the rare-class filter, so "Unknown" does not survive into
either fitted encoder's classes. -/
theorem claimC9_unknown_injection (m : Nat)
    (tok : String → Except String (List String))
    (lem : String → Except String String) (base : List String)
    (r0 : Record) (rest : List Record) (P : Prepared)
    (hcat : ∀ r ∈ r0 :: rest, r.category ≠ "Unknown")
    (hsub : ∀ r ∈ r0 :: rest, r.sub_category ≠ "Unknown")
    (hm : 2 ≤ m) :
    inject_unknown (r0 :: rest) =
      .ok (((r0 :: rest) ++ [⟨"unknown case", "Unknown", r0.sub_category⟩])
        ++ [⟨"unknown case", r0.category, "Unknown"⟩]) ∧
    (prepare_data m tok lem base (r0 :: rest) = .ok P →
      "Unknown" ∉ P.catClasses ∧ "Unknown" ∉ P.subClasses) := by
  have hcat0 : r0.category ≠ "Unknown" := hcat r0 (List.mem_cons_self r0 rest)
  have hsub0 : r0.sub_category ≠ "Unknown" := hsub r0 (List.mem_cons_self r0 rest)
  have hng1 : ¬((r0 :: rest).any (fun r => decide (r.category = "Unknown")) = true) := by
    intro hx
    obtain ⟨r, hr, hp⟩ := List.any_eq_true.mp hx
    exact hcat r hr (of_decide_eq_true hp)
  have h1 : injectCol Record.category (fun r v => { r with category := v }) (r0 :: rest)
      = .ok ((r0 :: rest) ++ [⟨"unknown case", "Unknown", r0.sub_category⟩]) := by
    unfold injectCol
    rw [if_neg hng1]
  have hng2 : ¬(((r0 :: rest) ++ [(⟨"unknown case", "Unknown", r0.sub_category⟩ : Record)]).any
      (fun r => decide (r.sub_category = "Unknown")) = true) := by
    intro hx
    obtain ⟨r, hr, hp⟩ := List.any_eq_true.mp hx
    have hp2 : r.sub_category = "Unknown" := of_decide_eq_true hp
    rcases List.mem_append.mp hr with hr1 | hr2
    · exact hsub r hr1 hp2
    · have hru : r = ⟨"unknown case", "Unknown", r0.sub_category⟩ :=
        List.mem_singleton.mp hr2
      rw [hru] at hp2
      exact hsub0 hp2
  have h2 : injectCol Record.sub_category (fun r v => { r with sub_category := v })
      ((r0 :: rest) ++ [⟨"unknown case", "Unknown", r0.sub_category⟩])
      = .ok (((r0 :: rest) ++ [⟨"unknown case", "Unknown", r0.sub_category⟩])
        ++ [⟨"unknown case", r0.category, "Unknown"⟩]) := by
    unfold injectCol
    rw [if_neg hng2]
    rfl
  have hinj : inject_unknown (r0 :: rest) =
      .ok (((r0 :: rest) ++ [⟨"unknown case", "Unknown", r0.sub_category⟩])
        ++ [⟨"unknown case", r0.category, "Unknown"⟩]) := by
    unfold inject_unknown
    rw [h1]
    exact h2
  refine ⟨hinj, ?_⟩
  intro hprep
  obtain ⟨dfI, dfF, hI, hF, hrows, hcatC, hsubC⟩ := prepare_data_ok hprep
  have hdfI : dfI = ((r0 :: rest) ++ [⟨"unknown case", "Unknown", r0.sub_category⟩])
      ++ [⟨"unknown case", r0.category, "Unknown"⟩] :=
    Except.ok.inj (hI.symm.trans hinj)
  obtain ⟨hFout, _⟩ := filter_rare_ok hF
  have hcnt_cat : countLabel dfI Record.category "Unknown" = 1 := by
    rw [hdfI, countLabel_append, countLabel_append]
    rw [countLabel_eq_zero hcat, countLabel_singleton, countLabel_singleton]
    simp [hcat0]
  have hcnt_sub : countLabel dfI Record.sub_category "Unknown" = 1 := by
    rw [hdfI, countLabel_append, countLabel_append]
    rw [countLabel_eq_zero hsub, countLabel_singleton, countLabel_singleton]
    simp [hsub0]
  constructor
  · intro hc
    rw [hcatC] at hc
    obtain ⟨p, hp, hpc⟩ := encFit_map_exists hc
    have hrec := (prepRows_mem (hrows ▸ hp)).1
    rw [hFout] at hrec
    have h2m := mem_filterColumn.mp hrec
    have h1m := mem_filterColumn.mp h2m.1
    rw [hpc, hcnt_cat] at h1m
    omega
  · intro hc
    rw [hsubC] at hc
    obtain ⟨p, hp, hpc⟩ := encFit_map_exists hc
    have hrec := (prepRows_mem (hrows ▸ hp)).1
    rw [hFout] at hrec
    have h2m := mem_filterColumn.mp hrec
    have hle := countLabel_filterColumn_le m Record.category Record.sub_category dfI "Unknown"
    rw [hcnt_sub] at hle
    rw [hpc] at h2m
    have hm2 := h2m.2
    omega

/-- Witness for C9 on the two-record dataset: "Unknown" appears in neither
fitted encoder's classes after preparation with min_samples_per_class 2. -/
theorem claimC9_witness :
    "Unknown" ∉ pairPrepared.catClasses ∧ "Unknown" ∉ pairPrepared.subClasses :=
  (claimC9_unknown_injection 2 okTok idLemma [] ⟨"abcd", "A", "X"⟩
    [⟨"abcd", "A", "X"⟩] pairPrepared (by decide) (by decide) (by decide)).2
    (by decide)

end Netra
